import Mathlib

/-!
Verification of the element-geometry core of the oofem library
(src/oofemlib/elementgeometry.h) against its natural-language
specification.

The repository slice under verification is the interface header
`elementgeometry.h`.  Operations whose bodies appear inline in that header
(`ipEvaluator`, `adaptiveUpdate`, `checkConsistency`,
`giveDefaultIntegrationRulePtr`, `giveNumberOfNodes`,
`giveNumberOfDofManagers`, ...) are translated directly from the source.
Operations that the header only declares (`packUnknowns`,
`unpackAndUpdateUnknowns`, `estimatePackSize`, `isActivated`,
`updateLocalNumbering`, `giveIPValue`) are implemented elsewhere in the
repository; those are modelled from the specification, and each such
definition carries a doc comment saying so.

Machine `double` fields (coordinates, weights, local coordinate systems)
are carried as inert `Int` placeholders: no verified property performs
floating-point arithmetic on them.  Opaque material-state payloads are
carried as `List Nat` (a sequence of buffer words).
-/

namespace oofem

/-- Modelled from the spec: a solution step; only the step's queried time is
relevant at this layer (class `TimeStep` is an external collaborator, not under
the verified sources). -/
structure TimeStep where
  targetTime : Int
deriving Repr, DecidableEq

/-- Modelled from the spec: one quadrature location — local coordinates, an
integration weight, and an opaque material-state payload owned by the material
layer (class `GaussPoint` is an external collaborator, not under the verified
sources). -/
structure GaussPoint where
  naturalCoordinates : List Int
  weight : Int
  matState : List Nat
deriving Repr, DecidableEq

instance : Inhabited GaussPoint := ⟨⟨[], 0, []⟩⟩

/-- Modelled from the spec: an integration rule owns an ordered sequence of
GaussPoints; order is significant and stable (class `IntegrationRule` is an
external collaborator, not under the verified sources). -/
structure IntegrationRule where
  gaussPoints : List GaussPoint
deriving Repr, DecidableEq

instance : Inhabited IntegrationRule := ⟨⟨[]⟩⟩

/-- `IntegrationRule::giveNumberOfIntegrationPoints`: number of points of the
rule. -/
def IntegrationRule.giveNumberOfIntegrationPoints (r : IntegrationRule) : Nat :=
  r.gaussPoints.length

/-- `IntegrationRule::getIntegrationPoint(i)`: the i-th point of the rule
(0-based, as used by `ipEvaluator`). -/
def IntegrationRule.getIntegrationPoint (r : IntegrationRule) (i : Nat) : GaussPoint :=
  r.gaussPoints.getD i default

/-- `elementParallelMode` (elementgeometry.h lines 97-101). -/
inductive elementParallelMode where
  | Element_local : elementParallelMode
  | Element_remote : elementParallelMode
deriving Repr, DecidableEq

/-- State of `ElementGeometry` (elementgeometry.h lines 123-171): dofmanager
count and array, material / cross-section / activity-time-function indices,
integration-rule count and array, local coordinate system, global number,
`nip`, and the parallel-mode fields. -/
structure ElementGeometry where
  number : Nat
  numberOfDofMans : Nat
  dofManArray : List Nat
  material : Nat
  crossSection : Nat
  activityTimeFunction : Nat
  numberOfIntegrationRules : Nat
  integrationRulesArray : List IntegrationRule
  elemLocalCS : List (List Int)
  globalNumber : Nat
  numberOfGaussPoints : Nat
  parallel_mode : elementParallelMode
  partitions : List Nat
deriving Repr, DecidableEq

/-- `ElementGeometry::giveNumberOfDofManagers` (line 350): returns
`numberOfDofMans`. -/
def ElementGeometry.giveNumberOfDofManagers (e : ElementGeometry) : Nat :=
  e.numberOfDofMans

/-- `ElementGeometry::giveNumberOfNodes` (line 356): default implementation
returns `numberOfDofMans`. -/
def ElementGeometry.giveNumberOfNodes (e : ElementGeometry) : Nat :=
  e.numberOfDofMans

/-- `ElementGeometry::giveActivityTimeFunction` (line 401). -/
def ElementGeometry.giveActivityTimeFunction (e : ElementGeometry) : Nat :=
  e.activityTimeFunction

/-- `ElementGeometry::checkConsistency` (line 415): base-class default,
`return 1;`. -/
def ElementGeometry.checkConsistency (_e : ElementGeometry) : Int :=
  1

/-- `ElementGeometry::giveNumberOfIntegrationRules` (line 491). -/
def ElementGeometry.giveNumberOfIntegrationRules (e : ElementGeometry) : Nat :=
  e.numberOfIntegrationRules

/-- `ElementGeometry::giveDefaultIntegrationRule` (line 457): default
implementation returns index 0. -/
def ElementGeometry.giveDefaultIntegrationRule (_e : ElementGeometry) : Nat :=
  0

/-- `ElementGeometry::giveDefaultIntegrationRulePtr` (lines 463-469): NULL when
there are no integration rules, otherwise the rule of the array at index
`giveDefaultIntegrationRule()`.  The C++ pointer result is rendered as
`Option`; the raw array access is rendered as `List.get?`. -/
def ElementGeometry.giveDefaultIntegrationRulePtr (e : ElementGeometry) :
    Option IntegrationRule :=
  if e.giveNumberOfIntegrationRules = 0 then
    none
  else
    e.integrationRulesArray.get? e.giveDefaultIntegrationRule

/-- `ElementGeometry::adaptiveUpdate` (line 612): base-class default,
`return 1;`, touching no element state.  Rendered as returning the result code
together with the (unchanged) element. -/
def ElementGeometry.adaptiveUpdate (e : ElementGeometry) (_tStep : TimeStep) :
    Int × ElementGeometry :=
  (1, e)

/-- `ElementGeometry::giveGlobalNumber` (line 699). -/
def ElementGeometry.giveGlobalNumber (e : ElementGeometry) : Nat :=
  e.globalNumber

/-- `ElementGeometry::givePartitionList` (line 749). -/
def ElementGeometry.givePartitionList (e : ElementGeometry) : List Nat :=
  e.partitions

/-- `ElementGeometry::ipEvaluator` plain form (lines 800-813): for
`ir = 0 .. numberOfIntegrationRules-1`, read
`nip = integrationRulesArray[ir]->giveNumberOfIntegrationPoints()` and for
`ip = 0 .. nip-1` apply the member function `f` of the receiver object `src` to
`integrationRulesArray[ir]->getIntegrationPoint(ip)`.  The mutated receiver
object is threaded as the fold state. -/
def ElementGeometry.ipEvaluator {T : Type} (e : ElementGeometry) (src : T)
    (f : T → GaussPoint → T) : T :=
  (List.range e.numberOfIntegrationRules).foldl
    (fun acc ir =>
      let rule := e.integrationRulesArray.getD ir default
      (List.range rule.giveNumberOfIntegrationPoints).foldl
        (fun a ip => f a (rule.getIntegrationPoint ip)) acc)
    src

/-- `ElementGeometry::ipEvaluator` accumulator-threading overload (lines
815-828): same double loop, the member function receives the point and the
additional value `val`; both the receiver object and the value are threaded. -/
def ElementGeometry.ipEvaluatorAcc {T S : Type} (e : ElementGeometry) (src : T)
    (f : T → GaussPoint → S → T × S) (val : S) : T × S :=
  (List.range e.numberOfIntegrationRules).foldl
    (fun acc ir =>
      let rule := e.integrationRulesArray.getD ir default
      (List.range rule.giveNumberOfIntegrationPoints).foldl
        (fun a ip => f a.1 (rule.getIntegrationPoint ip) a.2) acc)
    (src, val)

/-- The visitation trace of the traversal: the points in the order
`ipEvaluator` hands them to the supplied operation. -/
def ElementGeometry.ipTrace (e : ElementGeometry) : List GaussPoint :=
  e.ipEvaluator ([] : List GaussPoint) (fun tr gp => tr ++ [gp])

/-- The element's points in rule-order then point-order: the concatenation of
the point sequences of the rules of `integrationRulesArray`. -/
def ElementGeometry.ipPoints (e : ElementGeometry) : List GaussPoint :=
  (e.integrationRulesArray.map IntegrationRule.gaussPoints).flatten

/-- Modelled from the spec: the implementation of
`ElementGeometry::isActivated` (declared at elementgeometry.h:420) is not under
the verified sources.  The spec: it evaluates the activity-time-function at the
step's time, zero means inactive, and an element with no
activity-time-function defined (index 0, cf. the field comment at line 134) is
always active.  The domain's time-function registry is supplied as `tf`,
mapping a function index and a time to the function value. -/
def ElementGeometry.isActivated (e : ElementGeometry) (tf : Nat → Int → Int)
    (tStep : TimeStep) : Bool :=
  if e.activityTimeFunction = 0 then
    true
  else
    tf e.activityTimeFunction tStep.targetTime != 0

/-- Modelled from the spec: the implementation of
`ElementGeometry::updateLocalNumbering` (declared at elementgeometry.h:629) is
not under the verified sources.  The spec: it applies the caller-supplied
index-remapping function to every stored entity reference — the dof-manager
indices, the global number, and the partition ids — consistently. -/
def ElementGeometry.updateLocalNumbering (e : ElementGeometry) (f : Nat → Nat) :
    ElementGeometry :=
  { e with
    dofManArray := e.dofManArray.map f
    globalNumber := f e.globalNumber
    partitions := e.partitions.map f }

/-- Modelled from the spec: the implementation of
`ElementGeometry::giveIPValue` (declared at elementgeometry.h:525) is not under
the verified sources.  The spec: it delegates the physical evaluation to the
cross-section/material collaborators (supplied here as `csEval`, an optional
result per point, quantity kind and step); for quantities the combination does
not provide it returns an empty result and a zero "not supported" code instead
of failing, and a nonzero code when the value is available. -/
def ElementGeometry.giveIPValue (_e : ElementGeometry)
    (csEval : GaussPoint → Nat → TimeStep → Option (List Int))
    (gp : GaussPoint) (quantity : Nat) (tStep : TimeStep) : List Int × Int :=
  match csEval gp quantity tStep with
  | none => ([], 0)
  | some v => (v, 1)

/-- Modelled from the spec: the per-point wire payload produced by the
cross-section/material collaborator for `ElementGeometry::packUnknowns`.  The
communication buffer is a sequence of words; a packed array is its size
followed by its data, so one point contributes a length-prefixed copy of its
material-state payload. -/
def packPoint (gp : GaussPoint) : List Nat :=
  gp.matState.length :: gp.matState

/-- The wire size of one point's payload. -/
def pointPackSize (gp : GaussPoint) : Nat :=
  1 + gp.matState.length

/-- Modelled from the spec: the implementation of
`ElementGeometry::packUnknowns` (declared at elementgeometry.h:730) is not
under the verified sources.  The spec: it serializes, in the fixed traversal
order (the integration-point traversal, rule-order then point-order), the
material-state payload of every integration point into the communication
buffer.  The step parameter selects the exchanged state; the payload packed at
a point is that point's current material state. -/
def ElementGeometry.packUnknowns (e : ElementGeometry) (_tStep : TimeStep) :
    List Nat :=
  e.ipEvaluator ([] : List Nat) (fun buf gp => buf ++ packPoint gp)

/-- Modelled from the spec: the implementation of
`ElementGeometry::estimatePackSize` (declared at elementgeometry.h:744) is not
under the verified sources.  The spec: it returns an upper bound on the bytes
`packUnknowns` will write, obtained by accumulating the per-point pack size
over the same traversal. -/
def ElementGeometry.estimatePackSize (e : ElementGeometry) : Nat :=
  e.ipEvaluator 0 (fun acc gp => acc + pointPackSize gp)

/-- Reading one point's payload back: consume the length word, then that many
payload words, and overwrite the receiving point's material state; a too-short
buffer is a protocol desync (`none`). -/
def unpackPoint (gp : GaussPoint) (buf : List Nat) :
    Option (GaussPoint × List Nat) :=
  match buf with
  | [] => none
  | len :: rest =>
      if len ≤ rest.length then
        some ({ gp with matState := rest.take len }, rest.drop len)
      else
        none

/-- Reading the payloads of the points of one rule, in point-order. -/
def unpackPointList :
    List GaussPoint → List Nat → Option (List GaussPoint × List Nat)
  | [], buf => some ([], buf)
  | gp :: gps, buf =>
      match unpackPoint gp buf with
      | none => none
      | some (gp1, buf1) =>
          match unpackPointList gps buf1 with
          | none => none
          | some (gps1, buf2) => some (gp1 :: gps1, buf2)

/-- Reading the payloads of all rules, in rule-order. -/
def unpackRuleList :
    List IntegrationRule → List Nat → Option (List IntegrationRule × List Nat)
  | [], buf => some ([], buf)
  | r :: rs, buf =>
      match unpackPointList r.gaussPoints buf with
      | none => none
      | some (pts1, buf1) =>
          match unpackRuleList rs buf1 with
          | none => none
          | some (rs1, buf2) => some (IntegrationRule.mk pts1 :: rs1, buf2)

/-- Modelled from the spec: the implementation of
`ElementGeometry::unpackAndUpdateUnknowns` (declared at elementgeometry.h:738)
is not under the verified sources.  The spec: it deserializes in the identical
fixed order (rule-order then point-order) and overwrites the corresponding
points' state on the receiving side; a point-count or buffer-size mismatch is a
protocol-desync fatal error, rendered as `none`. -/
def ElementGeometry.unpackAndUpdateUnknowns (e : ElementGeometry)
    (_tStep : TimeStep) (buf : List Nat) : Option ElementGeometry :=
  match unpackRuleList e.integrationRulesArray buf with
  | some (rs1, []) => some { e with integrationRulesArray := rs1 }
  | _ => none

/-- The per-integration-point material state of an element, rule by rule and
point by point. -/
def ElementGeometry.ipStates (e : ElementGeometry) : List (List (List Nat)) :=
  e.integrationRulesArray.map (fun r => r.gaussPoints.map GaussPoint.matState)

/-- The point-count signature of an element: per rule, the number of points.
Two elements are structurally identical for the partition exchange when their
signatures agree. -/
def ElementGeometry.ruleShape (e : ElementGeometry) : List Nat :=
  e.integrationRulesArray.map (fun r => r.gaussPoints.length)

/-- Sample point with a two-word material state. -/
def gpA : GaussPoint :=
  { naturalCoordinates := [0], weight := 1, matState := [10, 11] }

/-- Sample point with a one-word material state. -/
def gpB : GaussPoint :=
  { naturalCoordinates := [1], weight := 1, matState := [12] }

/-- Sample point with an empty material state. -/
def gpC : GaussPoint :=
  { naturalCoordinates := [2], weight := 2, matState := [] }

/-- Sample mirror-side point, same slot as `gpA` but different state. -/
def gpA2 : GaussPoint :=
  { naturalCoordinates := [0], weight := 1, matState := [0] }

/-- Sample mirror-side point, same slot as `gpB` but different state. -/
def gpB2 : GaussPoint :=
  { naturalCoordinates := [1], weight := 1, matState := [] }

/-- Sample mirror-side point, same slot as `gpC` but different state. -/
def gpC2 : GaussPoint :=
  { naturalCoordinates := [2], weight := 2, matState := [99, 98, 97] }

/-- A concrete well-formed element with two integration rules. -/
def elemE : ElementGeometry :=
  { number := 1
    numberOfDofMans := 3
    dofManArray := [4, 7, 9]
    material := 1
    crossSection := 2
    activityTimeFunction := 5
    numberOfIntegrationRules := 2
    integrationRulesArray := [⟨[gpA, gpB]⟩, ⟨[gpC]⟩]
    elemLocalCS := []
    globalNumber := 42
    numberOfGaussPoints := 3
    parallel_mode := elementParallelMode.Element_local
    partitions := [0, 1] }

/-- A concrete mirror of `elemE`: the same rule and point counts, different
per-point material state, held `remote` on the other partition. -/
def elemM : ElementGeometry :=
  { number := 6
    numberOfDofMans := 3
    dofManArray := [4, 7, 9]
    material := 1
    crossSection := 2
    activityTimeFunction := 5
    numberOfIntegrationRules := 2
    integrationRulesArray := [⟨[gpA2, gpB2]⟩, ⟨[gpC2]⟩]
    elemLocalCS := []
    globalNumber := 42
    numberOfGaussPoints := 3
    parallel_mode := elementParallelMode.Element_remote
    partitions := [0, 1] }

/-- A concrete time step. -/
def tsW : TimeStep := { targetTime := 3 }

/-- A collaborator evaluation that supports no quantity at all. -/
def csEvalNone : GaussPoint → Nat → TimeStep → Option (List Int) :=
  fun _ _ _ => none

/-- Overwriting a receiving point's state with a transmitted point's state. -/
def overwriteGp (gpm gpe : GaussPoint) : GaussPoint :=
  { gpm with matState := gpe.matState }

/-- The wire image of a sequence of points, in point-order. -/
def packPointList (pts : List GaussPoint) : List Nat :=
  (pts.map packPoint).flatten

/-- An index loop `for i in 0 .. l.length-1` reading `l.getD i default` folds
exactly like a structural fold over `l`. -/
theorem foldl_range_getD {α β : Type} [Inhabited α] (g : β → α → β) (l : List α) :
    ∀ v : β,
      (List.range l.length).foldl (fun acc i => g acc (l.getD i default)) v
        = l.foldl g v := by
  induction l using List.reverseRecOn with
  | nil => intro v; rfl
  | append_singleton xs x ih =>
      intro v
      have hlen : (xs ++ [x]).length = xs.length + 1 := by simp
      rw [hlen, List.range_succ, List.foldl_append, List.foldl_append]
      have hstep :
          List.foldl (fun acc i => g acc ((xs ++ [x]).getD i default)) v
              (List.range xs.length)
            = List.foldl (fun acc i => g acc (xs.getD i default)) v
              (List.range xs.length) := by
        apply List.foldl_ext
        intro a i hi
        rw [List.getD_append]
        exact List.mem_range.mp hi
      rw [hstep, ih]
      simp [List.getD_append_right]

/-- Folding rule-by-rule is folding over the flattened point sequence. -/
theorem foldl_map_flatten {α β γ : Type} (g : α → List γ) (f : β → γ → β) :
    ∀ (l : List α) (v : β),
      l.foldl (fun acc x => (g x).foldl f acc) v
        = ((l.map g).flatten).foldl f v := by
  intro l
  induction l with
  | nil => intro v; rfl
  | cons x xs ih => intro v; simp [List.foldl_append, ih]

/-- Collecting visited items by appending singletons yields the visited
sequence itself. -/
theorem foldl_snoc {α : Type} :
    ∀ (l acc : List α), l.foldl (fun tr gp => tr ++ [gp]) acc = acc ++ l := by
  intro l
  induction l with
  | nil => intro acc; simp
  | cons x xs ih => intro acc; simp [List.foldl_cons, ih]

/-- When the stored rule count agrees with the rule array (the invariant that
`setIntegrationRules` maintains), the plain `ipEvaluator` is the fold of the
supplied operation over `ipPoints`, the points in rule-order then
point-order. -/
theorem ipEvaluator_eq_foldl {T : Type} (e : ElementGeometry)
    (h : e.numberOfIntegrationRules = e.integrationRulesArray.length)
    (src : T) (f : T → GaussPoint → T) :
    e.ipEvaluator src f = e.ipPoints.foldl f src := by
  unfold ElementGeometry.ipEvaluator ElementGeometry.ipPoints
  rw [h]
  rw [foldl_range_getD
    (fun acc rule =>
      (List.range rule.giveNumberOfIntegrationPoints).foldl
        (fun a ip => f a (rule.getIntegrationPoint ip)) acc)
    e.integrationRulesArray src]
  have hrule : ∀ (rule : IntegrationRule) (acc : T),
      (List.range rule.giveNumberOfIntegrationPoints).foldl
        (fun a ip => f a (rule.getIntegrationPoint ip)) acc
        = rule.gaussPoints.foldl f acc := by
    intro rule acc
    exact foldl_range_getD f rule.gaussPoints acc
  have hfun :
      (fun (acc : T) (rule : IntegrationRule) =>
        (List.range rule.giveNumberOfIntegrationPoints).foldl
          (fun a ip => f a (rule.getIntegrationPoint ip)) acc)
        = fun (acc : T) (rule : IntegrationRule) => rule.gaussPoints.foldl f acc := by
    funext acc rule
    exact hrule rule acc
  rw [hfun]
  exact foldl_map_flatten IntegrationRule.gaussPoints f e.integrationRulesArray src

/-- The accumulator-threading overload is the plain traversal on the paired
state. -/
theorem ipEvaluatorAcc_eq_ipEvaluator {T S : Type} (e : ElementGeometry) (src : T)
    (f : T → GaussPoint → S → T × S) (val : S) :
    e.ipEvaluatorAcc src f val
      = e.ipEvaluator (src, val) (fun a gp => f a.1 gp a.2) := rfl

/-- A map under the traversal state commutes with the traversal when it
commutes with every step. -/
theorem foldl_hom_list {β T U : Type} (φ : T → U) (f : T → β → T) (g : U → β → U)
    (hfg : ∀ t b, φ (f t b) = g (φ t) b) :
    ∀ (l : List β) (src : T), φ (l.foldl f src) = l.foldl g (φ src) := by
  intro l
  induction l with
  | nil => intro src; rfl
  | cons x xs ih => intro src; simp only [List.foldl_cons, ih, hfg]

/-- `ipEvaluator` naturality: a map on the threaded state that commutes with
the per-point operation commutes with the whole traversal. -/
theorem ipEvaluator_hom {T U : Type} (e : ElementGeometry) (φ : T → U)
    (f : T → GaussPoint → T) (g : U → GaussPoint → U)
    (hfg : ∀ t gp, φ (f t gp) = g (φ t) gp) (src : T) :
    φ (e.ipEvaluator src f) = e.ipEvaluator (φ src) g := by
  unfold ElementGeometry.ipEvaluator
  apply foldl_hom_list
  intro t ir
  dsimp only
  apply foldl_hom_list
  intro t2 ip
  exact hfg t2 _

/-- Appending per-item payloads across a fold flattens the mapped payloads. -/
theorem foldl_append_map {α β : Type} (g : α → List β) :
    ∀ (l : List α) (acc : List β),
      l.foldl (fun buf x => buf ++ g x) acc = acc ++ (l.map g).flatten := by
  intro l
  induction l with
  | nil => intro acc; simp
  | cons x xs ih => intro acc; simp [List.foldl_cons, ih]

/-- Flattening, mapping, flattening again can be done rule by rule. -/
theorem map_flatten_flatten {α β : Type} (f : α → List β) :
    ∀ L : List (List α),
      (L.flatten.map f).flatten = (L.map (fun l => (l.map f).flatten)).flatten := by
  intro L
  induction L with
  | nil => rfl
  | cons x xs ih =>
      simp only [List.flatten_cons, List.map_cons, List.map_append,
        List.flatten_append, ih]

/-- Under the rule-count invariant, the packed buffer is the concatenation, in
rule-order then point-order, of the length-prefixed per-point payloads. -/
theorem packUnknowns_flat (e : ElementGeometry)
    (h : e.numberOfIntegrationRules = e.integrationRulesArray.length)
    (t : TimeStep) :
    e.packUnknowns t
      = (e.integrationRulesArray.map (fun r => packPointList r.gaussPoints)).flatten := by
  unfold ElementGeometry.packUnknowns
  rw [ipEvaluator_eq_foldl e h, foldl_append_map]
  unfold ElementGeometry.ipPoints packPointList
  rw [List.nil_append, map_flatten_flatten packPoint]
  rw [List.map_map]
  rfl

/-- Reading back one length-prefixed payload restores exactly that payload and
leaves the rest of the buffer. -/
theorem unpackPoint_packPoint (gpm gpe : GaussPoint) (rest : List Nat) :
    unpackPoint gpm (packPoint gpe ++ rest) = some (overwriteGp gpm gpe, rest) := by
  unfold unpackPoint packPoint overwriteGp
  simp only [List.cons_append]
  rw [if_pos]
  · rw [List.take_left, List.drop_left]
  · simp

/-- Reading back a packed point sequence of matching length overwrites the
receiving points' states with the transmitted ones and leaves the rest of the
buffer. -/
theorem unpackPointList_pack :
    ∀ (ptsm ptse : List GaussPoint) (rest : List Nat),
      ptsm.length = ptse.length →
      unpackPointList ptsm (packPointList ptse ++ rest)
        = some (List.zipWith overwriteGp ptsm ptse, rest) := by
  intro ptsm
  induction ptsm with
  | nil =>
      intro ptse rest h
      cases ptse with
      | nil => simp [unpackPointList, packPointList]
      | cons a as => simp at h
  | cons gpm gpsm ih =>
      intro ptse rest h
      cases ptse with
      | nil => simp at h
      | cons gpe gpse =>
          have htl : gpsm.length = gpse.length := by simpa using h
          simp only [packPointList, List.map_cons, List.flatten_cons,
            List.append_assoc]
          have hpack : unpackPointList (gpm :: gpsm)
              (packPoint gpe ++ ((gpse.map packPoint).flatten ++ rest))
                = some (overwriteGp gpm gpe :: List.zipWith overwriteGp gpsm gpse, rest) := by
            simp only [unpackPointList, unpackPoint_packPoint]
            have := ih gpse rest htl
            simp only [packPointList] at this
            rw [this]
          simpa using hpack

/-- Reading back a packed rule sequence of matching shape overwrites the
receiving element's per-point states rule by rule and leaves the rest of the
buffer. -/
theorem unpackRuleList_pack :
    ∀ (rsm rse : List IntegrationRule) (rest : List Nat),
      rsm.map (fun r => r.gaussPoints.length) = rse.map (fun r => r.gaussPoints.length) →
      unpackRuleList rsm ((rse.map (fun r => packPointList r.gaussPoints)).flatten ++ rest)
        = some (List.zipWith
            (fun rm re => IntegrationRule.mk
              (List.zipWith overwriteGp rm.gaussPoints re.gaussPoints)) rsm rse, rest) := by
  intro rsm
  induction rsm with
  | nil =>
      intro rse rest h
      cases rse with
      | nil => simp [unpackRuleList]
      | cons a as => simp at h
  | cons rm rsm2 ih =>
      intro rse rest h
      cases rse with
      | nil => simp at h
      | cons re rse2 =>
          simp only [List.map_cons, List.cons.injEq] at h
          obtain ⟨hhd, htl⟩ := h
          simp only [List.map_cons, List.flatten_cons, List.append_assoc]
          simp only [unpackRuleList,
            unpackPointList_pack rm.gaussPoints re.gaussPoints _ hhd,
            ih rse2 rest htl]
          simp

/-- Overwritten states are the transmitted states when the point counts
match. -/
theorem zipWith_overwrite_states :
    ∀ ptsm ptse : List GaussPoint,
      ptsm.length = ptse.length →
      (List.zipWith overwriteGp ptsm ptse).map GaussPoint.matState
        = ptse.map GaussPoint.matState := by
  intro ptsm
  induction ptsm with
  | nil =>
      intro ptse h
      cases ptse with
      | nil => rfl
      | cons a as => simp at h
  | cons x xs ih =>
      intro ptse h
      cases ptse with
      | nil => simp at h
      | cons y ys =>
          have htl : xs.length = ys.length := by simpa using h
          simp [overwriteGp, ih ys htl]

/-- Overwritten per-rule states are the transmitted per-rule states when the
rule shapes match. -/
theorem zipWith_overwrite_rule_states :
    ∀ rsm rse : List IntegrationRule,
      rsm.map (fun r => r.gaussPoints.length) = rse.map (fun r => r.gaussPoints.length) →
      (List.zipWith
          (fun rm re => IntegrationRule.mk
            (List.zipWith overwriteGp rm.gaussPoints re.gaussPoints)) rsm rse).map
          (fun r => r.gaussPoints.map GaussPoint.matState)
        = rse.map (fun r => r.gaussPoints.map GaussPoint.matState) := by
  intro rsm
  induction rsm with
  | nil =>
      intro rse h
      cases rse with
      | nil => rfl
      | cons a as => simp at h
  | cons rm rsm2 ih =>
      intro rse h
      cases rse with
      | nil => simp at h
      | cons re rse2 =>
          simp only [List.map_cons, List.cons.injEq] at h
          obtain ⟨hhd, htl⟩ := h
          simp [zipWith_overwrite_states rm.gaussPoints re.gaussPoints hhd, ih rse2 htl]

/-- C1: the integration-point traversal `ipEvaluator`, in both its plain and
its accumulator-threading form, visits every GaussPoint of every
IntegrationRule owned by the element exactly once, in rule-order (index 0 to
numberOfIntegrationRules-1) and, within each rule, in point-order (index 0 to
the rule's point count minus 1): the visitation trace is exactly `ipPoints`
(the flattened rule-then-point sequence), and either form applies the
caller-supplied operation as the fold of that operation over `ipPoints`, i.e.
once per point in that order. -/
theorem ipEvaluator_visits_in_order (e : ElementGeometry)
    (h : e.numberOfIntegrationRules = e.integrationRulesArray.length) :
    e.ipTrace = e.ipPoints
    ∧ (∀ (T : Type) (src : T) (f : T → GaussPoint → T),
        e.ipEvaluator src f = e.ipPoints.foldl f src)
    ∧ (∀ (T S : Type) (src : T) (f : T → GaussPoint → S → T × S) (val : S),
        e.ipEvaluatorAcc src f val
          = e.ipPoints.foldl (fun a gp => f a.1 gp a.2) (src, val)) := by
  refine ⟨?_, ?_, ?_⟩
  · unfold ElementGeometry.ipTrace
    rw [ipEvaluator_eq_foldl e h, foldl_snoc]
    simp
  · intro T src f
    exact ipEvaluator_eq_foldl e h src f
  · intro T S src f val
    rw [ipEvaluatorAcc_eq_ipEvaluator, ipEvaluator_eq_foldl e h]

/-- Witness for C1: the concrete two-rule element `elemE` satisfies the
rule-count invariant and its traversal trace is its flattened point
sequence. -/
theorem ipEvaluator_visits_in_order_witness :
    elemE.numberOfIntegrationRules = elemE.integrationRulesArray.length
    ∧ elemE.ipTrace = elemE.ipPoints :=
  ⟨rfl, (ipEvaluator_visits_in_order elemE rfl).1⟩

/-- C2: packing an element and unpacking the same buffer into a structurally
identical mirror element (same rules and point counts) succeeds and leaves the
mirror's per-integration-point state exactly equal to the source element's
pre-pack state, rule by rule and point by point. -/
theorem packUnknowns_roundtrip (e m : ElementGeometry) (t : TimeStep)
    (he : e.numberOfIntegrationRules = e.integrationRulesArray.length)
    (hshape : m.ruleShape = e.ruleShape) :
    (m.unpackAndUpdateUnknowns t (e.packUnknowns t)).map ElementGeometry.ipStates
      = some e.ipStates := by
  rw [packUnknowns_flat e he t]
  unfold ElementGeometry.unpackAndUpdateUnknowns
  unfold ElementGeometry.ruleShape at hshape
  have h3 := unpackRuleList_pack m.integrationRulesArray e.integrationRulesArray [] hshape
  rw [List.append_nil] at h3
  rw [h3]
  simp [ElementGeometry.ipStates,
    zipWith_overwrite_rule_states m.integrationRulesArray e.integrationRulesArray hshape]

/-- Witness for C2: the concrete mirror pair `elemE` (local) and `elemM`
(remote) with equal rule shapes but different per-point states; the round trip
reproduces the source states. -/
theorem packUnknowns_roundtrip_witness :
    elemM.ruleShape = elemE.ruleShape
    ∧ (elemM.unpackAndUpdateUnknowns tsW (elemE.packUnknowns tsW)).map
        ElementGeometry.ipStates = some elemE.ipStates :=
  ⟨by decide, packUnknowns_roundtrip elemE elemM tsW rfl (by decide)⟩

/-- C3: the value returned by `estimatePackSize` is greater than or equal to
the number of buffer words actually written by `packUnknowns` for the same
element and step (the model accumulates exactly the per-point wire sizes over
the same traversal, so the bound holds with equality). -/
theorem estimatePackSize_ge_packUnknowns (e : ElementGeometry) (t : TimeStep) :
    (e.packUnknowns t).length ≤ e.estimatePackSize := by
  have h : (e.packUnknowns t).length = e.estimatePackSize := by
    unfold ElementGeometry.packUnknowns ElementGeometry.estimatePackSize
    have := ipEvaluator_hom e List.length
      (fun buf gp => buf ++ packPoint gp)
      (fun acc gp => acc + pointPackSize gp)
      (by
        intro buf gp
        simp [packPoint, pointPackSize]
        omega)
      ([] : List Nat)
    simpa using this
  exact Nat.le_of_eq h

/-- C4: `isActivated` returns false if and only if the activity-time-function
is defined (nonzero index) and evaluates to zero at the step's time; in
particular an element with no activity-time-function defined is always
active. -/
theorem isActivated_false_iff (e : ElementGeometry) (tf : Nat → Int → Int)
    (t : TimeStep) :
    e.isActivated tf t = false
      ↔ 0 < e.giveActivityTimeFunction
        ∧ tf e.giveActivityTimeFunction t.targetTime = 0 := by
  unfold ElementGeometry.isActivated ElementGeometry.giveActivityTimeFunction
  by_cases h : e.activityTimeFunction = 0
  · simp [h]
  · simp [h, Nat.pos_of_ne_zero h]

/-- C5: `updateLocalNumbering` applied with the identity remapping leaves the
dof-manager index array, the global number, and the partition list
unchanged. -/
theorem updateLocalNumbering_id (e : ElementGeometry) :
    (e.updateLocalNumbering id).dofManArray = e.dofManArray
    ∧ (e.updateLocalNumbering id).giveGlobalNumber = e.giveGlobalNumber
    ∧ (e.updateLocalNumbering id).givePartitionList = e.givePartitionList := by
  refine ⟨?_, ?_, ?_⟩ <;>
    simp [ElementGeometry.updateLocalNumbering, ElementGeometry.giveGlobalNumber,
      ElementGeometry.givePartitionList]

/-- C6: the default `adaptiveUpdate` (base class, no path-dependent state)
returns 1 — a nonzero success code — and leaves the element's state unchanged,
for every element and every time step. -/
theorem adaptiveUpdate_default_success (e : ElementGeometry) (t : TimeStep) :
    (e.adaptiveUpdate t).1 = 1
    ∧ 0 < (e.adaptiveUpdate t).1
    ∧ (e.adaptiveUpdate t).2 = e :=
  ⟨rfl, Int.one_pos, rfl⟩

/-- C7: for a quantity kind the element/material combination does not provide,
`giveIPValue` returns a zero-sized answer together with a zero "not supported"
return code (no error is raised: the function is total), and it returns a
nonzero code exactly when the collaborators supply the value. -/
theorem giveIPValue_unsupported (e : ElementGeometry)
    (csEval : GaussPoint → Nat → TimeStep → Option (List Int))
    (gp : GaussPoint) (q : Nat) (t : TimeStep) :
    (csEval gp q t = none → e.giveIPValue csEval gp q t = ([], 0))
    ∧ ((e.giveIPValue csEval gp q t).2 ≠ 0 ↔ (csEval gp q t).isSome) := by
  unfold ElementGeometry.giveIPValue
  cases h : csEval gp q t with
  | none => simp
  | some v => simp

/-- Witness for C7: a collaborator supporting no quantity yields the empty
answer and the zero code at a concrete point and step. -/
theorem giveIPValue_unsupported_witness :
    elemE.giveIPValue csEvalNone gpA 7 tsW = ([], 0) :=
  (giveIPValue_unsupported elemE csEvalNone gpA 7 tsW).1 rfl

/-- C8: the base-class default `checkConsistency` returns the pass code 1 —
nonzero, i.e. pass — unconditionally for every element state; it is a total
function, so it never throws. -/
theorem checkConsistency_default_pass (e : ElementGeometry) :
    e.checkConsistency = 1 ∧ 0 < e.checkConsistency :=
  ⟨rfl, Int.one_pos⟩

/-- C9: under the rule-count invariant, `giveDefaultIntegrationRulePtr`
returns NULL (none) if and only if `giveNumberOfIntegrationRules()` is zero;
otherwise it returns the entry of the integration-rule array at index
`giveDefaultIntegrationRule()` (0 in the default implementation), so a
rule-less element yields a null signal instead of an out-of-bounds access. -/
theorem giveDefaultIntegrationRulePtr_spec (e : ElementGeometry)
    (h : e.numberOfIntegrationRules = e.integrationRulesArray.length) :
    (e.giveDefaultIntegrationRulePtr = none
        ↔ e.giveNumberOfIntegrationRules = 0)
    ∧ (0 < e.giveNumberOfIntegrationRules →
        e.giveDefaultIntegrationRulePtr
          = e.integrationRulesArray.get? e.giveDefaultIntegrationRule) := by
  unfold ElementGeometry.giveDefaultIntegrationRulePtr
    ElementGeometry.giveNumberOfIntegrationRules
    ElementGeometry.giveDefaultIntegrationRule
  by_cases h0 : e.numberOfIntegrationRules = 0
  · simp [h0]
  · have hlen : 0 < e.integrationRulesArray.length := by omega
    constructor
    · simp only [if_neg h0]
      constructor
      · intro hnone
        exfalso
        rw [List.get?_eq_none] at hnone
        omega
      · intro hz
        exact absurd hz h0
    · intro _
      simp [h0]

/-- Witness for C9: on the concrete two-rule element the default-rule access
returns the array entry at the default index. -/
theorem giveDefaultIntegrationRulePtr_spec_witness :
    elemE.numberOfIntegrationRules = elemE.integrationRulesArray.length
    ∧ elemE.giveDefaultIntegrationRulePtr
        = elemE.integrationRulesArray.get? elemE.giveDefaultIntegrationRule :=
  ⟨rfl, (giveDefaultIntegrationRulePtr_spec elemE rfl).2 (by decide)⟩

/-- C10: in the default implementation `giveNumberOfNodes()` and
`giveNumberOfDofManagers()` agree for every element state: both return the
stored `numberOfDofMans`. -/
theorem giveNumberOfNodes_eq_dofManagers (e : ElementGeometry) :
    e.giveNumberOfNodes = e.giveNumberOfDofManagers
    ∧ e.giveNumberOfNodes = e.numberOfDofMans :=
  ⟨rfl, rfl⟩

end oofem
